import Mathlib

/-!
# Verification of `scripts/manage_version.py`

A shallow embedding of the rustbot version-management script.  File contents
and in-flight strings are modelled as `List Char`; Python exceptions are
modelled with `Except`; Python `int` is modelled as `Int`.  Each definition
is translated directly from the corresponding Python construct:

* `pyInt` models Python `int(s)` on ASCII strings: optional surrounding
  whitespace, an optional sign, then digits optionally grouped by single
  underscores between digits.
* `splitDot` models `s.split('.')`.
* `natDigits`/`intStr` model `str(n)` for a Python int, and `pad4` models
  the format `f"{n:04d}"`.
* The `re` operations of the script are embedded as explicit scanners
  specialised to the three patterns the script uses; `re.sub` (which
  replaces every non-overlapping occurrence, left to right) is embedded as
  a fuel-indexed scan whose fuel is the content length (each replacement or
  skip consumes at least one character, so the fuel never runs out).
-/

namespace ManageVersion

/-- ASCII whitespace, as stripped by Python `int()` and matched by `\s`. -/
def isWs (c : Char) : Bool :=
  c = ' ' || c = '\t' || c = '\n' || c = '\r' || c = '\x0b' || c = '\x0c'

/-- Numeric value of an ASCII digit character. -/
def digitVal (c : Char) : Nat := c.toNat - 48

/-- Strip leading and trailing ASCII whitespace (Python `int()` does this). -/
def pyStrip (s : List Char) : List Char :=
  ((s.dropWhile isWs).reverse.dropWhile isWs).reverse

/-- Digit-and-underscore scanner for Python integer literal bodies.
`afterUnd` records that the previous character was an underscore (which must
be followed by a digit). -/
def pyDigitsAux : Nat → Bool → List Char → Option Nat
  | acc, afterUnd, [] => if afterUnd then none else some acc
  | acc, afterUnd, c :: cs =>
    if c.isDigit then pyDigitsAux (acc * 10 + digitVal c) false cs
    else if c = '_' then (if afterUnd then none else pyDigitsAux acc true cs)
    else none

/-- Body of a Python integer literal: leading digit, then digits with
optional single underscores between digits. -/
def pyDigitsVal : List Char → Option Nat
  | [] => none
  | c :: cs => if c.isDigit then pyDigitsAux 0 false (c :: cs) else none

/-- Sign handling of Python `int(s)`, applied to the stripped string. -/
def pyIntCore : List Char → Option Int
  | [] => none
  | c :: cs =>
    if c = '+' then (pyDigitsVal cs).map Int.ofNat
    else if c = '-' then (pyDigitsVal cs).map (fun n => -(Int.ofNat n))
    else (pyDigitsVal (c :: cs)).map Int.ofNat

/-- Python `int(s)` on ASCII strings: strip whitespace, optional sign,
digit body.  `none` models a raised `ValueError`. -/
def pyInt (s : List Char) : Option Int :=
  pyIntCore (pyStrip s)

/-- Model of `int(s)` with the `ValueError` carried as an `Except` message. -/
def pyIntE (s : List Char) : Except (List Char) Int :=
  match pyInt s with
  | some n => Except.ok n
  | none => Except.error ("invalid literal for int() with base 10: ".toList ++ s)

/-- Value of a plain nonempty digit string (used to state hypotheses about
build counters such as `"0007"`). -/
def digitsToNat (s : List Char) : Nat :=
  s.foldl (fun a c => a * 10 + digitVal c) 0

/-- Python `s.split('.')`: splits at every dot, keeping empty pieces. -/
def splitDot : List Char → List (List Char)
  | [] => [[]]
  | c :: cs =>
    if c = '.' then [] :: splitDot cs
    else
      match splitDot cs with
      | [] => [[c]]
      | p :: ps => (c :: p) :: ps

/-- Fuel-indexed digit accumulator for decimal printing.  The fuel only
bounds the recursion depth; any fuel greater than the value suffices. -/
def natDigitsAux : Nat → Nat → List Char → List Char
  | 0, _, acc => acc
  | fuel + 1, n, acc =>
    if n < 10 then Char.ofNat (48 + n) :: acc
    else natDigitsAux fuel (n / 10) (Char.ofNat (48 + n % 10) :: acc)

/-- Decimal digits of a natural number, most significant first
(Python `str(n)` for `n ≥ 0`). -/
def natDigits (n : Nat) : List Char := natDigitsAux (n + 1) n []

/-- Python `str(n)` for an int, signs included. -/
def intStr (x : Int) : List Char :=
  if x < 0 then '-' :: natDigits x.natAbs else natDigits x.natAbs

/-- The f-string `f"{major}.{minor}.{patch}"` of `bump_version`. -/
def fmtVersion (a b c : Int) : List Char :=
  intStr a ++ '.' :: (intStr b ++ '.' :: intStr c)

/-- The format `f"{n:04d}"`: zero-pad to at least four characters,
sign included in the width; wider numbers are printed in full. -/
def pad4 (n : Int) : List Char :=
  (if n < 0 then ['-'] else [])
    ++ List.replicate (4 - ((natDigits n.natAbs).length + (if n < 0 then 1 else 0))) '0'
    ++ natDigits n.natAbs

/-- Model of `VersionManager.parse_version`: split on `'.'`, require exactly three
components, convert each with `int()` (left to right, first failure wins). -/
def parse_version (v : List Char) : Except (List Char) (Int × Int × Int) :=
  match splitDot v with
  | [a, b, c] =>
    match pyIntE a with
    | Except.error e => Except.error e
    | Except.ok x =>
      match pyIntE b with
      | Except.error e => Except.error e
      | Except.ok y =>
        match pyIntE c with
        | Except.error e => Except.error e
        | Except.ok z => Except.ok (x, y, z)
  | _ => Except.error ("Invalid version format: ".toList ++ v)

/-- If `lit` is a prefix of `s`, return the remainder. -/
def dropPref : List Char → List Char → Option (List Char)
  | [], s => some s
  | _, [] => none
  | c :: cs, d :: ds => if c = d then dropPref cs ds else none

/-- Try the pattern `lit` + `[^"]+` + `"` at the head of `s` (the shape of
both `version.rs` declaration patterns).  On success return the capture
(the `[^"]+` run) and the remainder after the closing quote.  The greedy
run is exact: a shorter run would have to end at a non-quote character. -/
def matchConstAt (lit s : List Char) : Option (List Char × List Char) :=
  match dropPref lit s with
  | none => none
  | some r =>
    match r.dropWhile (fun c => c != '"') with
    | '"' :: rest =>
      if (r.takeWhile (fun c => c != '"')).isEmpty then none
      else some (r.takeWhile (fun c => c != '"'), rest)
    | _ => none

/-- Model of `re.search` for a `lit`-headed declaration pattern: leftmost match,
returning the captured group. -/
def searchConst (lit : List Char) : List Char → Option (List Char)
  | [] => none
  | c :: cs =>
    match matchConstAt lit (c :: cs) with
    | some (cap, _) => some cap
    | none => searchConst lit cs

/-- Model of `re.sub` for a `lit`-headed declaration pattern: replace every
non-overlapping occurrence, scanning left to right.  `fuel` bounds the
number of scan steps; each step consumes at least one character. -/
def subConstAux (lit repl : List Char) : Nat → List Char → List Char
  | 0, s => s
  | _ + 1, [] => []
  | fuel + 1, c :: cs =>
    match matchConstAt lit (c :: cs) with
    | some (_, rest) => repl ++ subConstAux lit repl fuel rest
    | none => c :: subConstAux lit repl fuel cs

/-- Model of `re.sub(lit-pattern, repl, s)`. -/
def subConst (lit repl s : List Char) : List Char :=
  subConstAux lit repl s.length s

/-- Opening literal of `r'pub const VERSION: &str = "([^"]+)"'`. -/
def VERSION_OPEN : List Char := "pub const VERSION: &str = \"".toList

/-- Opening literal of `r'pub const BUILD: &str = "([^"]+)"'`. -/
def BUILD_OPEN : List Char := "pub const BUILD: &str = \"".toList

/-- Model of `VersionManager.get_current_version`: extract the VERSION and BUILD
string literals from the `version.rs` content; `ValueError` if either
pattern is absent. -/
def get_current_version (content : List Char) :
    Except (List Char) (List Char × List Char) :=
  match searchConst VERSION_OPEN content, searchConst BUILD_OPEN content with
  | some v, some b => Except.ok (v, b)
  | _, _ => Except.error ("Could not parse version from version.rs".toList)

/-- Model of `VersionManager.update_version_rs`: two successive `re.sub` passes,
then an unconditional confirmation print (returned as the second
component; the script prints the full path, modelled by the file name). -/
def update_version_rs (content version build : List Char) :
    List Char × String :=
  (subConst BUILD_OPEN (BUILD_OPEN ++ build ++ ['"'])
    (subConst VERSION_OPEN (VERSION_OPEN ++ version ++ ['"']) content),
   "✓ Updated src/version.rs")

/-- Opening literal of the manifest pattern `r'^version = "[^"]+"'`. -/
def CARGO_OPEN : List Char := "version = \"".toList

/-- Try `version = "[^"]+"` at the head of `s` (the caller is responsible
for the `^` anchor); return the remainder after the match. -/
def matchCargoAt (s : List Char) : Option (List Char) :=
  match dropPref CARGO_OPEN s with
  | none => none
  | some r =>
    match r.dropWhile (fun c => c != '"') with
    | '"' :: rest =>
      if (r.takeWhile (fun c => c != '"')).isEmpty then none else some rest
    | _ => none

/-- Model of `re.sub(r'^version = "[^"]+"', repl, s, flags=re.MULTILINE)`:
`atStart` is true exactly when the scan position is the start of the
string or immediately after a newline (where `^` matches). -/
def subCargoAux (repl : List Char) : Nat → Bool → List Char → List Char
  | 0, _, s => s
  | _ + 1, _, [] => []
  | fuel + 1, atStart, c :: cs =>
    if atStart then
      match matchCargoAt (c :: cs) with
      | some rest => repl ++ subCargoAux repl fuel false rest
      | none => c :: subCargoAux repl fuel (c == '\n') cs
    else c :: subCargoAux repl fuel (c == '\n') cs

/-- Whether the multiline-anchored manifest pattern matches anywhere. -/
def cargoHasMatch : Bool → List Char → Bool
  | _, [] => false
  | atStart, c :: cs =>
    (atStart && (matchCargoAt (c :: cs)).isSome) || cargoHasMatch (c == '\n') cs

/-- Model of `VersionManager.update_cargo_toml`: substitute, then print the
confirmation line unconditionally. -/
def update_cargo_toml (content version : List Char) : List Char × String :=
  (subCargoAux (CARGO_OPEN ++ version ++ ['"']) content.length true content,
   "✓ Updated Cargo.toml")

/-- Heading literal of the documentation pattern. -/
def MD_HEAD : List Char := "## Current Version".toList

/-- Version-bullet literal of the documentation pattern. -/
def MD_VER : List Char := "- **Version**: ".toList

/-- Build-bullet literal of the documentation pattern. -/
def MD_BLD : List Char := "- **Build**: ".toList

/-- Greedy `\s+`: drop a nonempty whitespace run (exact here because in the
documentation pattern every `\s+` is followed by a literal starting with
`'-'`, which is not whitespace, so no backtracking can help). -/
def wsRun (s : List Char) : Option (List Char) :=
  if (s.takeWhile isWs).isEmpty then none else some (s.dropWhile isWs)

/-- Tail of the documentation pattern: `- \*\*Build\*\*: [^\n]+` with the
final run greedy; returns the remainder after the whole match. -/
def tryBuildTail (s : List Char) : Option (List Char) :=
  match dropPref MD_BLD s with
  | none => none
  | some r =>
    if (r.takeWhile (fun c => c != '\n')).isEmpty then none
    else some (r.dropWhile (fun c => c != '\n'))

/-- Backtracking over the length `k` of the Version-bullet value
(`[^\n]+`), longest first, as the regex engine does: after taking `k`
characters of the value, `\s+` and the Build tail must match. -/
def tryFromK : Nat → List Char → Option (List Char)
  | 0, _ => none
  | k + 1, s =>
    match wsRun (s.drop (k + 1)) with
    | none => tryFromK k s
    | some r2 =>
      match tryBuildTail r2 with
      | some rest => some rest
      | none => tryFromK k s

/-- Try the full documentation pattern
`## Current Version\s+- \*\*Version\*\*: [^\n]+\s+- \*\*Build\*\*: [^\n]+`
at the head of `s`; return the remainder after the match. -/
def matchMdAt (s : List Char) : Option (List Char) :=
  match dropPref MD_HEAD s with
  | none => none
  | some r1 =>
    match wsRun r1 with
    | none => none
    | some r2 =>
      match dropPref MD_VER r2 with
      | none => none
      | some r3 => tryFromK (r3.takeWhile (fun c => c != '\n')).length r3

/-- Whether the documentation pattern matches anywhere in `s`. -/
def mdHasMatch : List Char → Bool
  | [] => false
  | c :: cs => (matchMdAt (c :: cs)).isSome || mdHasMatch cs

/-- Model of `re.sub` for the documentation pattern. -/
def subMdAux (repl : List Char) : Nat → List Char → List Char
  | 0, s => s
  | _ + 1, [] => []
  | fuel + 1, c :: cs =>
    match matchMdAt (c :: cs) with
    | some rest => repl ++ subMdAux repl fuel rest
    | none => c :: subMdAux repl fuel cs

/-- The replacement block
`f'## Current Version\n\n- **Version**: {version}\n- **Build**: {build}'`. -/
def mdRepl (version build : List Char) : List Char :=
  "## Current Version\n\n- **Version**: ".toList ++ version
    ++ "\n- **Build**: ".toList ++ build

/-- Model of `VersionManager.update_version_md`: substitute (a no-op when the block
pattern is absent), then print the confirmation line unconditionally. -/
def update_version_md (content version build : List Char) :
    List Char × String :=
  (subMdAux (mdRepl version build) content.length content,
   "✓ Updated VERSION_MANAGEMENT.md")

/-- The three files the script rewrites. -/
structure Files where
  version_rs : List Char
  cargo_toml : List Char
  version_md : List Char

/-- Model of `VersionManager.bump_version`: read the current pair, parse the
version, then apply the rule for the requested bump type.  Any raised
`ValueError` propagates as `Except.error`. -/
def bump_version (rs bump_type : List Char) :
    Except (List Char) (List Char × List Char) :=
  match get_current_version rs with
  | Except.error e => Except.error e
  | Except.ok (current_version, current_build) =>
    match parse_version current_version with
    | Except.error e => Except.error e
    | Except.ok (major, minor, patch) =>
      if bump_type = "major".toList then
        Except.ok (fmtVersion (major + 1) 0 0, "0001".toList)
      else if bump_type = "minor".toList then
        Except.ok (fmtVersion major (minor + 1) 0, "0001".toList)
      else if bump_type = "patch".toList then
        Except.ok (fmtVersion major minor (patch + 1), "0001".toList)
      else if bump_type = "build".toList then
        match pyIntE current_build with
        | Except.error e => Except.error e
        | Except.ok build_num => Except.ok (current_version, pad4 (build_num + 1))
      else Except.error ("Invalid bump type: ".toList ++ bump_type)

/-- Model of `VersionManager.bump`: orchestration.  Returns the new file contents
together with the list of per-file confirmation lines (the decorative
summary prints are not modelled).  The manifest is rewritten only when the
new version string differs from the old one, exactly as in the script. -/
def bump (fs : Files) (bump_type : List Char) :
    Except (List Char) (Files × List String) :=
  match get_current_version fs.version_rs with
  | Except.error e => Except.error e
  | Except.ok (old_version, _old_build) =>
    match bump_version fs.version_rs bump_type with
    | Except.error e => Except.error e
    | Except.ok (new_version, new_build) =>
      let rs := update_version_rs fs.version_rs new_version new_build
      let ct :=
        if new_version = old_version then (fs.cargo_toml, ([] : List String))
        else
          ((update_cargo_toml fs.cargo_toml new_version).fst,
           [(update_cargo_toml fs.cargo_toml new_version).snd])
      let md := update_version_md fs.version_md new_version new_build
      Except.ok (⟨rs.fst, ct.fst, md.fst⟩, rs.snd :: ct.snd ++ [md.snd])

/-! ## Character-class facts -/

theorem digit_ne_plus {c : Char} (h : c.isDigit = true) : c ≠ '+' := by
  intro he; subst he; exact absurd h (by decide)

theorem digit_ne_minus {c : Char} (h : c.isDigit = true) : c ≠ '-' := by
  intro he; subst he; exact absurd h (by decide)

theorem digit_ne_underscore {c : Char} (h : c.isDigit = true) : c ≠ '_' := by
  intro he; subst he; exact absurd h (by decide)

theorem digit_ne_dot {c : Char} (h : c.isDigit = true) : c ≠ '.' := by
  intro he; subst he; exact absurd h (by decide)

theorem digit_not_ws {c : Char} (h : c.isDigit = true) : isWs c = false := by
  rcases hw : isWs c with _ | _
  · rfl
  · simp only [isWs, Bool.or_eq_true, decide_eq_true_eq] at hw
    rcases hw with ((((h1 | h1) | h1) | h1) | h1) | h1 <;>
      (subst h1; exact absurd h (by decide))

theorem digitVal_ofNat {d : Nat} (h : d < 10) :
    digitVal (Char.ofNat (48 + d)) = d := by
  interval_cases d <;> decide

theorem isDigit_ofNat {d : Nat} (h : d < 10) :
    (Char.ofNat (48 + d)).isDigit = true := by
  interval_cases d <;> decide

/-! ## Decimal printing: `natDigits`, `intStr` -/

theorem natDigitsAux_acc :
    ∀ (f : Nat), ∀ {n : Nat}, n < f → ∀ (acc : List Char),
      natDigitsAux f n acc = natDigitsAux f n [] ++ acc := by
  intro f
  induction f with
  | zero => intro n hn; omega
  | succ f ih =>
    intro n hn acc
    rw [natDigitsAux, natDigitsAux]
    split
    · rfl
    · rename_i h10
      have hdn : n / 10 < n := Nat.div_lt_self (by omega) (by omega)
      have hlt : n / 10 < f := by omega
      rw [ih hlt, ih hlt [Char.ofNat (48 + n % 10)], List.append_assoc,
        List.singleton_append]

theorem natDigitsAux_fuel :
    ∀ (f : Nat), ∀ {g n : Nat}, n < f → n < g → ∀ (acc : List Char),
      natDigitsAux f n acc = natDigitsAux g n acc := by
  intro f
  induction f with
  | zero => intro g n hn; omega
  | succ f ih =>
    intro g n hn hg acc
    cases g with
    | zero => omega
    | succ g =>
      rw [natDigitsAux, natDigitsAux]
      split
      · rfl
      · rename_i h10
        have hdn : n / 10 < n := Nat.div_lt_self (by omega) (by omega)
        have hlt : n / 10 < f := by omega
        have hltg : n / 10 < g := by omega
        exact ih hlt hltg _

/-- The defining recursion of decimal printing, fuel eliminated. -/
theorem natDigits_eq (n : Nat) :
    natDigits n = if n < 10 then [Char.ofNat (48 + n)]
      else natDigits (n / 10) ++ [Char.ofNat (48 + n % 10)] := by
  rw [natDigits, natDigitsAux]
  split
  · rfl
  · rename_i h10
    have hlt : n / 10 < n := Nat.div_lt_self (by omega) (by omega)
    rw [natDigitsAux_acc n hlt, natDigits,
      natDigitsAux_fuel n hlt (Nat.lt_succ_self _)]

theorem natDigits_ne_nil (n : Nat) : natDigits n ≠ [] := by
  rw [natDigits_eq]
  split <;> simp

theorem natDigits_digit (n : Nat) : ∀ c ∈ natDigits n, c.isDigit = true := by
  induction n using Nat.strong_induction_on with
  | _ n ih =>
    rw [natDigits_eq]
    split
    · intro c hc
      rw [List.mem_singleton] at hc
      subst hc
      exact isDigit_ofNat (by omega)
    · intro c hc
      rcases List.mem_append.mp hc with h1 | h1
      · exact ih (n / 10) (Nat.div_lt_self (by omega) (by omega)) c h1
      · rw [List.mem_singleton] at h1
        subst h1
        exact isDigit_ofNat (by omega)

theorem natDigits_foldl (n : Nat) :
    ∀ acc, (natDigits n).foldl (fun a c => a * 10 + digitVal c) acc
      = acc * 10 ^ (natDigits n).length + n := by
  induction n using Nat.strong_induction_on with
  | _ n ih =>
    intro acc
    rw [natDigits_eq]
    split
    · simp only [List.foldl_cons, List.foldl_nil, List.length_singleton, pow_one]
      rw [digitVal_ofNat (by omega)]
    · rw [List.foldl_append, ih (n / 10) (Nat.div_lt_self (by omega) (by omega)),
        List.length_append, List.length_singleton]
      simp only [List.foldl_cons, List.foldl_nil]
      rw [digitVal_ofNat (Nat.mod_lt n (by omega)), pow_succ, ← mul_assoc]
      have hdm := Nat.div_add_mod n 10
      generalize (natDigits (n / 10)).length = L at *
      generalize acc * 10 ^ L = q
      omega

theorem intStr_mem (x : Int) : ∀ c ∈ intStr x, c = '-' ∨ c.isDigit = true := by
  intro c hc
  rw [intStr] at hc
  split at hc
  · rcases List.mem_cons.mp hc with h1 | h1
    · exact Or.inl h1
    · exact Or.inr (natDigits_digit _ c h1)
  · exact Or.inr (natDigits_digit _ c hc)

theorem intStr_no_dot (x : Int) : '.' ∉ intStr x := by
  intro hc
  rcases intStr_mem x '.' hc with h1 | h1
  · exact absurd h1 (by decide)
  · exact absurd h1 (by decide)

/-! ## `pyInt` computes the value of printed integers -/

theorem dropWhile_all_false {p : Char → Bool} :
    ∀ {l : List Char}, (∀ c ∈ l, p c = false) → l.dropWhile p = l := by
  intro l h
  cases l with
  | nil => rfl
  | cons c cs =>
    rw [List.dropWhile_cons, h c (List.mem_cons_self c cs)]
    simp

theorem pyStrip_id {l : List Char} (h : ∀ c ∈ l, isWs c = false) :
    pyStrip l = l := by
  rw [pyStrip, dropWhile_all_false h, dropWhile_all_false, List.reverse_reverse]
  intro c hc
  exact h c (List.mem_reverse.mp hc)

theorem pyDigitsAux_digits :
    ∀ (l : List Char), (∀ c ∈ l, c.isDigit = true) → ∀ acc,
      pyDigitsAux acc false l
        = some (l.foldl (fun a c => a * 10 + digitVal c) acc) := by
  intro l
  induction l with
  | nil => intro _ acc; rfl
  | cons c cs ih =>
    intro h acc
    rw [pyDigitsAux, h c (List.mem_cons_self c cs)]
    simp only [if_true, List.foldl_cons]
    exact ih (fun d hd => h d (List.mem_cons_of_mem c hd)) _

theorem pyDigitsVal_digits {l : List Char} (hne : l ≠ [])
    (h : ∀ c ∈ l, c.isDigit = true) :
    pyDigitsVal l = some (digitsToNat l) := by
  cases l with
  | nil => exact absurd rfl hne
  | cons c cs =>
    rw [pyDigitsVal, h c (List.mem_cons_self c cs)]
    simp only [if_true]
    exact pyDigitsAux_digits (c :: cs) h 0

theorem digitsToNat_natDigits (n : Nat) : digitsToNat (natDigits n) = n := by
  rw [digitsToNat, natDigits_foldl n 0, Nat.zero_mul, Nat.zero_add]

theorem pyIntCore_natDigits (n : Nat) :
    pyIntCore (natDigits n) = some (Int.ofNat n) := by
  rcases hnd : natDigits n with _ | ⟨c, cs⟩
  · exact absurd hnd (natDigits_ne_nil n)
  · have hc : c.isDigit = true := by
      have := natDigits_digit n c
      rw [hnd] at this
      exact this (List.mem_cons_self c cs)
    rw [pyIntCore, if_neg (digit_ne_plus hc), if_neg (digit_ne_minus hc)]
    have hval : pyDigitsVal (c :: cs) = some (digitsToNat (natDigits n)) := by
      rw [← hnd]
      exact pyDigitsVal_digits (natDigits_ne_nil n) (natDigits_digit n)
    rw [hval, digitsToNat_natDigits, Option.map_some']

theorem pyInt_natDigits (n : Nat) : pyInt (natDigits n) = some (Int.ofNat n) := by
  have hws : ∀ c ∈ natDigits n, isWs c = false :=
    fun c hc => digit_not_ws (natDigits_digit n c hc)
  rw [pyInt, pyStrip_id hws, pyIntCore_natDigits]

theorem pyInt_intStr (x : Int) : pyInt (intStr x) = some x := by
  rw [intStr]
  split
  · rename_i hneg
    have hws : ∀ c ∈ '-' :: natDigits x.natAbs, isWs c = false := by
      intro c hc
      rcases List.mem_cons.mp hc with h1 | h1
      · subst h1; decide
      · exact digit_not_ws (natDigits_digit _ c h1)
    rw [pyInt, pyStrip_id hws, pyIntCore, if_neg (by decide), if_pos rfl]
    have hval : pyDigitsVal (natDigits x.natAbs)
        = some (digitsToNat (natDigits x.natAbs)) :=
      pyDigitsVal_digits (natDigits_ne_nil _) (natDigits_digit _)
    rw [hval, digitsToNat_natDigits, Option.map_some']
    congr 1
    simp only [Int.ofNat_eq_coe]
    omega
  · rename_i hpos
    rw [pyInt_natDigits]
    congr 1
    simp only [Int.ofNat_eq_coe]
    omega

/-! ## `splitDot` facts -/

theorem splitDot_ne_nil : ∀ s : List Char, splitDot s ≠ [] := by
  intro s
  cases s with
  | nil => simp [splitDot]
  | cons c cs =>
    rw [splitDot]
    split
    · simp
    · split <;> simp

theorem splitDot_no_dot : ∀ {xs : List Char}, '.' ∉ xs → splitDot xs = [xs] := by
  intro xs
  induction xs with
  | nil => intro _; rfl
  | cons c cs ih =>
    intro h
    have hc : c ≠ '.' := fun he => h (he ▸ List.mem_cons_self c cs)
    rw [splitDot, if_neg (fun he => hc he),
      ih (fun hm => h (List.mem_cons_of_mem c hm))]

theorem splitDot_append {xs : List Char} (ys : List Char) (h : '.' ∉ xs) :
    splitDot (xs ++ '.' :: ys) = xs :: splitDot ys := by
  induction xs with
  | nil => simp [splitDot]
  | cons c cs ih =>
    have hc : c ≠ '.' := fun he => h (he ▸ List.mem_cons_self c cs)
    rw [List.cons_append, splitDot, if_neg (fun he => hc he),
      ih (fun hm => h (List.mem_cons_of_mem c hm))]

theorem splitDot_length (v : List Char) :
    (splitDot v).length = v.count '.' + 1 := by
  induction v with
  | nil => rfl
  | cons c cs ih =>
    rw [splitDot]
    split
    · rename_i hc
      subst hc
      simp [List.count_cons, ih]
    · rename_i hc
      rcases hsd : splitDot cs with _ | ⟨p, ps⟩
      · exact absurd hsd (splitDot_ne_nil cs)
      · rw [hsd] at ih
        simp only [List.length_cons] at ih ⊢
        rw [List.count_cons]
        simp only [ih]
        have h' : ¬('.' = c) := fun he => hc he.symm
        simp [h']
        exact hc

/-! ## `parse_version` facts -/

theorem splitDot_fmtVersion (x y z : Int) :
    splitDot (fmtVersion x y z) = [intStr x, intStr y, intStr z] := by
  rw [fmtVersion, splitDot_append _ (intStr_no_dot x),
    splitDot_append _ (intStr_no_dot y), splitDot_no_dot (intStr_no_dot z)]

theorem pyIntE_intStr (x : Int) : pyIntE (intStr x) = Except.ok x := by
  rw [pyIntE, pyInt_intStr]

/-- Parsing a canonically formatted version recovers the triple. -/
theorem parse_version_fmtVersion (x y z : Int) :
    parse_version (fmtVersion x y z) = Except.ok (x, y, z) := by
  rw [parse_version]
  simp only [splitDot_fmtVersion, pyIntE_intStr]

/-- A component count other than three yields the format error, before any
numeric conversion is attempted. -/
theorem parse_version_wrong_count {v : List Char}
    (h : (splitDot v).length ≠ 3) :
    parse_version v = Except.error ("Invalid version format: ".toList ++ v) := by
  rw [parse_version]
  rcases hsd : splitDot v with _ | ⟨a, _ | ⟨b, _ | ⟨c, _ | ⟨d, t⟩⟩⟩⟩
  · rfl
  · rfl
  · rfl
  · rw [hsd] at h
    simp at h
  · rfl

/-! ## `pyInt` on plain digit strings (build counters) -/

theorem pyIntE_digits {b : List Char} (hne : b ≠ [])
    (h : ∀ c ∈ b, c.isDigit = true) :
    pyIntE b = Except.ok (Int.ofNat (digitsToNat b)) := by
  have hws : ∀ c ∈ b, isWs c = false := fun c hc => digit_not_ws (h c hc)
  have hval : pyInt b = some (Int.ofNat (digitsToNat b)) := by
    rw [pyInt, pyStrip_id hws]
    cases b with
    | nil => exact absurd rfl hne
    | cons c cs =>
      have hc : c.isDigit = true := h c (List.mem_cons_self c cs)
      rw [pyIntCore, if_neg (digit_ne_plus hc), if_neg (digit_ne_minus hc),
        pyDigitsVal_digits hne h, Option.map_some']
  rw [pyIntE, hval]

/-! ## `pyInt` rejects strings containing an alien character -/

theorem mem_dropWhile {p : Char → Bool} {c : Char} :
    ∀ {l : List Char}, c ∈ l → p c = false → c ∈ l.dropWhile p := by
  intro l
  induction l with
  | nil => intro h _; exact absurd h (List.not_mem_nil c)
  | cons d ds ih =>
    intro hm hp
    rw [List.dropWhile_cons]
    split
    · rename_i hd
      rcases List.mem_cons.mp hm with h1 | h1
      · subst h1; rw [hp] at hd; exact absurd hd (by simp)
      · exact ih h1 hp
    · exact hm

theorem mem_pyStrip {c : Char} {l : List Char} (hm : c ∈ l)
    (hw : isWs c = false) : c ∈ pyStrip l := by
  rw [pyStrip, List.mem_reverse]
  exact mem_dropWhile (List.mem_reverse.mpr (mem_dropWhile hm hw)) hw

theorem pyDigitsAux_alien {c : Char} (hd : c.isDigit = false) (hu : c ≠ '_') :
    ∀ {l : List Char}, c ∈ l → ∀ acc afterUnd,
      pyDigitsAux acc afterUnd l = none := by
  intro l
  induction l with
  | nil => intro h; exact absurd h (List.not_mem_nil c)
  | cons d ds ih =>
    intro hm acc afterUnd
    rw [pyDigitsAux]
    split
    · rename_i hdig
      rcases List.mem_cons.mp hm with h1 | h1
      · subst h1; rw [hd] at hdig; exact absurd hdig (by simp)
      · exact ih h1 _ _
    · split
      · rename_i hund
        rcases List.mem_cons.mp hm with h1 | h1
        · subst h1; exact absurd hund hu
        · split
          · rfl
          · exact ih h1 _ _
      · rfl

theorem pyDigitsVal_alien {c : Char} {l : List Char} (hm : c ∈ l)
    (hd : c.isDigit = false) (hu : c ≠ '_') : pyDigitsVal l = none := by
  cases l with
  | nil => rfl
  | cons d ds =>
    rw [pyDigitsVal]
    split
    · exact pyDigitsAux_alien hd hu hm 0 false
    · rfl

/-- A character that is not a digit, underscore, sign, or whitespace forces
`int()` to fail on any string containing it. -/
theorem pyInt_alien {c : Char} {l : List Char} (hm : c ∈ l)
    (hd : c.isDigit = false) (hu : c ≠ '_') (hp : c ≠ '+') (hmi : c ≠ '-')
    (hw : isWs c = false) : pyInt l = none := by
  have hms : c ∈ pyStrip l := mem_pyStrip hm hw
  rw [pyInt]
  rcases hst : pyStrip l with _ | ⟨d, ds⟩
  · rfl
  · rw [hst] at hms
    rw [pyIntCore]
    split
    · rename_i hdp
      subst hdp
      rcases List.mem_cons.mp hms with h1 | h1
      · exact absurd h1 hp
      · rw [pyDigitsVal_alien h1 hd hu, Option.map_none']
    · split
      · rename_i hdm
        subst hdm
        rcases List.mem_cons.mp hms with h1 | h1
        · exact absurd h1 hmi
        · rw [pyDigitsVal_alien h1 hd hu, Option.map_none']
      · rw [pyDigitsVal_alien hms hd hu, Option.map_none']

/-! ## `bump_version` branch equations -/

theorem bv_major {rs v b : List Char} {M m p : Int}
    (hv : get_current_version rs = Except.ok (v, b))
    (hp : parse_version v = Except.ok (M, m, p)) :
    bump_version rs ("major".toList)
      = Except.ok (fmtVersion (M + 1) 0 0, "0001".toList) := by
  simp [bump_version, hv, hp]

theorem bv_minor {rs v b : List Char} {M m p : Int}
    (hv : get_current_version rs = Except.ok (v, b))
    (hp : parse_version v = Except.ok (M, m, p)) :
    bump_version rs ("minor".toList)
      = Except.ok (fmtVersion M (m + 1) 0, "0001".toList) := by
  simp [bump_version, hv, hp]

theorem bv_patch {rs v b : List Char} {M m p : Int}
    (hv : get_current_version rs = Except.ok (v, b))
    (hp : parse_version v = Except.ok (M, m, p)) :
    bump_version rs ("patch".toList)
      = Except.ok (fmtVersion M m (p + 1), "0001".toList) := by
  simp [bump_version, hv, hp]

theorem bv_build {rs v b : List Char} {M m p : Int} {n : Int}
    (hv : get_current_version rs = Except.ok (v, b))
    (hp : parse_version v = Except.ok (M, m, p))
    (hb : pyIntE b = Except.ok n) :
    bump_version rs ("build".toList) = Except.ok (v, pad4 (n + 1)) := by
  simp [bump_version, hv, hp, hb]

theorem bv_invalid {rs v b bt : List Char} {t : Int × Int × Int}
    (hv : get_current_version rs = Except.ok (v, b))
    (hp : parse_version v = Except.ok t)
    (h1 : bt ≠ "major".toList) (h2 : bt ≠ "minor".toList)
    (h3 : bt ≠ "patch".toList) (h4 : bt ≠ "build".toList) :
    bump_version rs bt = Except.error ("Invalid bump type: ".toList ++ bt) := by
  obtain ⟨M, m, p⟩ := t
  simp only [bump_version, hv, hp]
  rw [if_neg h1, if_neg h2, if_neg h3, if_neg h4]

/-! ## Concrete fixtures for witnesses -/

/-- A well-formed `version.rs` content with version `0.2.6`, build `0007`. -/
def RS1 : List Char :=
  "pub const VERSION: &str = \"0.2.6\";\npub const BUILD: &str = \"0007\";\n".toList

/-- A well-formed `version.rs` content with build counter `9999`. -/
def RS9999 : List Char :=
  "pub const VERSION: &str = \"0.2.6\";\npub const BUILD: &str = \"9999\";\n".toList

/-- A concrete project state with all three files well-formed. -/
def FS1 : Files :=
  ⟨RS1, "[package]\nname = \"rustbot\"\nversion = \"0.2.6\"\n".toList,
   "## Current Version\n\n- **Version**: 0.2.6\n- **Build**: 0007\n".toList⟩

/-! ## Claim theorems -/

/-- Claim C1: For every stored version that parses as three non-negative
integers (major, minor, patch), `bump_version` follows the fixed rule
table: `major` yields `(major+1).0.0`, `minor` yields `major.(minor+1).0`,
`patch` yields `major.minor.(patch+1)`, and in all three cases the
returned build string is exactly `"0001"`. -/
theorem c1_bump_version_rule_table {rs v b : List Char} {M m p : Int}
    (hv : get_current_version rs = Except.ok (v, b))
    (hp : parse_version v = Except.ok (M, m, p))
    (hM : 0 ≤ M) (hm : 0 ≤ m) (hp' : 0 ≤ p) :
    bump_version rs "major".toList
        = Except.ok (fmtVersion (M + 1) 0 0, "0001".toList)
    ∧ bump_version rs "minor".toList
        = Except.ok (fmtVersion M (m + 1) 0, "0001".toList)
    ∧ bump_version rs "patch".toList
        = Except.ok (fmtVersion M m (p + 1), "0001".toList) :=
  ⟨bv_major hv hp, bv_minor hv hp, bv_patch hv hp⟩

/-- Witness for C1 at version `0.2.6`, build `0007`. -/
theorem c1_witness :
    bump_version RS1 "major".toList
        = Except.ok ("1.0.0".toList, "0001".toList)
    ∧ bump_version RS1 "minor".toList
        = Except.ok ("0.3.0".toList, "0001".toList)
    ∧ bump_version RS1 "patch".toList
        = Except.ok ("0.2.7".toList, "0001".toList) := by
  have h := @c1_bump_version_rule_table RS1 ("0.2.6".toList) ("0007".toList)
    0 2 6 rfl rfl (by decide) (by decide) (by decide)
  exact h

/-- Claim C2: For every stored pair (with a parsable version, per the data
model) whose build string is a decimal numeral, `bump_version "build"`
returns the version string unchanged and the build string equal to the
build integer plus one, formatted by `f"{n:04d}"` — zero-padded to at
least 4 digits with no cap (the formatting widens past 9999). -/
theorem c2_bump_version_build_increment {rs v b : List Char}
    {t : Int × Int × Int}
    (hv : get_current_version rs = Except.ok (v, b))
    (hp : parse_version v = Except.ok t)
    (hne : b ≠ []) (hdig : ∀ c ∈ b, c.isDigit = true) :
    bump_version rs "build".toList
      = Except.ok (v, pad4 (Int.ofNat (digitsToNat b) + 1)) := by
  obtain ⟨M, m, p⟩ := t
  exact bv_build hv hp (pyIntE_digits hne hdig)

/-- Witness for C2 at build `9999`: the result widens to `"10000"`. -/
theorem c2_witness :
    bump_version RS9999 "build".toList
      = Except.ok ("0.2.6".toList, "10000".toList) := by
  have h := @c2_bump_version_build_increment RS9999 ("0.2.6".toList)
    ("9999".toList) (0, 2, 6) rfl rfl (by decide) (by decide)
  exact h

/-- Counterexample for claim C6: the string `"01.2.3"` is accepted by `parse_version`
(three dot-separated numeric components), but re-formatting the parsed
triple gives `"1.2.3"`, not the original string. -/
theorem c6_counterexample :
    parse_version "01.2.3".toList = Except.ok (1, 2, 3)
    ∧ fmtVersion 1 2 3 = "1.2.3".toList
    ∧ "1.2.3".toList ≠ "01.2.3".toList :=
  ⟨rfl, rfl, by decide⟩

/-- Claim C6 as amended: round-trip holds on canonical version strings: for
every integer triple, parsing its formatted string recovers the triple,
and hence re-formatting reproduces the string exactly. -/
theorem c6_roundtrip_canonical (x y z : Int) :
    parse_version (fmtVersion x y z) = Except.ok (x, y, z)
    ∧ (parse_version (fmtVersion x y z)).map
        (fun t => fmtVersion t.1 t.2.1 t.2.2)
      = Except.ok (fmtVersion x y z) := by
  refine ⟨parse_version_fmtVersion x y z, ?_⟩
  rw [parse_version_fmtVersion]
  rfl

/-- Claim C7: Any input without exactly two `'.'` separators (equivalently,
not splitting into exactly three components) makes `parse_version` fail
with the format error — before any numeric conversion is attempted. -/
theorem c7_parse_version_wrong_separators {v : List Char}
    (h : v.count '.' ≠ 2) :
    parse_version v
      = Except.error ("Invalid version format: ".toList ++ v) := by
  apply parse_version_wrong_count
  rw [splitDot_length]
  omega

/-- Witness for C7 at `"1.2"` and `"1.2.3.4"`. -/
theorem c7_witness :
    parse_version "1.2".toList
        = Except.error ("Invalid version format: 1.2".toList)
    ∧ parse_version "1.2.3.4".toList
        = Except.error ("Invalid version format: 1.2.3.4".toList) := by
  have h1 := @c7_parse_version_wrong_separators ("1.2".toList) (by decide)
  have h2 := @c7_parse_version_wrong_separators ("1.2.3.4".toList) (by decide)
  exact ⟨h1, h2⟩

/-- Counterexample for claim C8: the string `"-1.2.3"` splits into exactly three
components, the first of which contains the non-digit character `'-'`,
yet `parse_version` succeeds (Python `int` accepts a sign), refuting the
claim that any non-digit character forces an error. -/
theorem c8_counterexample :
    splitDot "-1.2.3".toList = ["-1".toList, "2".toList, "3".toList]
    ∧ '-' ∈ "-1".toList
    ∧ ('-').isDigit = false
    ∧ parse_version "-1.2.3".toList = Except.ok (-1, 2, 3) :=
  ⟨by decide, by decide, by decide, rfl⟩

/-- Claim C8 as amended: a component containing a character outside Python
`int()`'s accepted alphabet — not an ASCII digit and not an underscore,
sign, or whitespace character — makes `parse_version` fail; sign,
whitespace and digit-grouping underscores alone do not. -/
theorem c8_parse_version_alien_char {v p : List Char} {c : Char}
    (hlen : (splitDot v).length = 3) (hmem : p ∈ splitDot v) (hc : c ∈ p)
    (h1 : c.isDigit = false) (h2 : c ≠ '_') (h3 : c ≠ '+') (h4 : c ≠ '-')
    (h5 : isWs c = false) :
    ∃ e, parse_version v = Except.error e := by
  have hnone : pyInt p = none := pyInt_alien hc h1 h2 h3 h4 h5
  have hperr : pyIntE p
      = Except.error ("invalid literal for int() with base 10: ".toList ++ p) := by
    rw [pyIntE, hnone]
  rcases hsd : splitDot v with _ | ⟨a, _ | ⟨b, _ | ⟨d, _ | ⟨x, t⟩⟩⟩⟩ <;>
    rw [hsd] at hlen <;> try simp at hlen
  rw [hsd] at hmem
  rw [parse_version, hsd]
  rcases List.mem_cons.mp hmem with h | h
  · subst h
    simp only [hperr]
    exact ⟨_, rfl⟩
  · rcases List.mem_cons.mp h with h' | h'
    · subst h'
      cases hia : pyIntE a with
      | error e0 => exact ⟨e0, by simp only [hia]⟩
      | ok xa =>
        simp only [hia, hperr]
        exact ⟨_, rfl⟩
    · have h'' : p = d := by simpa using h'
      subst h''
      cases hia : pyIntE a with
      | error e0 => exact ⟨e0, by simp only [hia]⟩
      | ok xa =>
        cases hib : pyIntE b with
        | error e1 => exact ⟨e1, by simp only [hia, hib]⟩
        | ok xb =>
          simp only [hia, hib, hperr]
          exact ⟨_, rfl⟩

/-- Witness for the amended C8 at `"1.a.3"`. -/
theorem c8_witness : ∃ e, parse_version "1.a.3".toList = Except.error e :=
  @c8_parse_version_alien_char ("1.a.3".toList) ("a".toList) 'a'
    (by decide) (by decide) (by decide) (by decide) (by decide) (by decide)
    (by decide) (by decide)

/-- Claim C9: For every bump-type string outside the four recognized values,
`bump_version` fails with the invalid-bump-type error, and the `bump`
orchestration fails with the same error before producing any new file
state (so no file is written). -/
theorem c9_invalid_bump_type {fs : Files} {v b bt : List Char}
    {t : Int × Int × Int}
    (hv : get_current_version fs.version_rs = Except.ok (v, b))
    (hp : parse_version v = Except.ok t)
    (h1 : bt ≠ "major".toList) (h2 : bt ≠ "minor".toList)
    (h3 : bt ≠ "patch".toList) (h4 : bt ≠ "build".toList) :
    bump_version fs.version_rs bt
        = Except.error ("Invalid bump type: ".toList ++ bt)
    ∧ bump fs bt = Except.error ("Invalid bump type: ".toList ++ bt) := by
  have hbv := bv_invalid hv hp h1 h2 h3 h4
  exact ⟨hbv, by simp only [bump, hv, hbv]⟩

/-- Witness for C9 at bump type `"bogus"`. -/
theorem c9_witness :
    bump_version FS1.version_rs "bogus".toList
        = Except.error ("Invalid bump type: bogus".toList)
    ∧ bump FS1 "bogus".toList
        = Except.error ("Invalid bump type: bogus".toList) := by
  have h := @c9_invalid_bump_type FS1 ("0.2.6".toList) ("0007".toList)
    ("bogus".toList) (0, 2, 6) rfl rfl (by decide) (by decide) (by decide)
    (by decide)
  exact h

/-! ## Silent no-op behaviour of the substitutions -/

theorem subMdAux_noop {repl : List Char} :
    ∀ {s : List Char}, mdHasMatch s = false → ∀ f, subMdAux repl f s = s := by
  intro s
  induction s with
  | nil => intro _ f; cases f <;> rfl
  | cons c cs ih =>
    intro h f
    rw [mdHasMatch, Bool.or_eq_false_iff] at h
    obtain ⟨h1, h2⟩ := h
    cases f with
    | zero => rfl
    | succ f =>
      rw [subMdAux]
      rcases hm : matchMdAt (c :: cs) with _ | rest
      · rw [ih h2]
      · rw [hm] at h1
        simp at h1

theorem subCargoAux_noop {repl : List Char} :
    ∀ {s : List Char} {atStart : Bool},
      cargoHasMatch atStart s = false → ∀ f, subCargoAux repl f atStart s = s := by
  intro s
  induction s with
  | nil => intro b _ f; cases f <;> rfl
  | cons c cs ih =>
    intro b h f
    rw [cargoHasMatch, Bool.or_eq_false_iff] at h
    obtain ⟨h1, h2⟩ := h
    cases f with
    | zero => rfl
    | succ f =>
      rw [subCargoAux]
      cases b with
      | false => simp [ih h2]
      | true =>
        rcases hm : matchCargoAt (c :: cs) with _ | rest
        · simp [hm, ih h2]
        · rw [hm] at h1
          simp at h1

/-- Claim C5: When the "Current Version" block pattern does not occur in the
documentation file, `update_version_md` writes the content back unchanged,
raises no error (it is a total function), and still returns the
updated-confirmation line. -/
theorem c5_update_version_md_silent_noop {content version build : List Char}
    (h : mdHasMatch content = false) :
    update_version_md content version build
      = (content, "✓ Updated VERSION_MANAGEMENT.md") := by
  rw [update_version_md, subMdAux_noop h]

/-- Witness for C5 on a documentation file without the block. -/
theorem c5_witness :
    update_version_md "# Notes\n\nNo version block here.\n".toList
        "9.9.9".toList "0042".toList
      = ("# Notes\n\nNo version block here.\n".toList,
         "✓ Updated VERSION_MANAGEMENT.md") :=
  @c5_update_version_md_silent_noop ("# Notes\n\nNo version block here.\n".toList)
    ("9.9.9".toList) ("0042".toList) (by decide)

/-- Claim C10: The silent no-op extends to the manifest: when no line of the
manifest matches the anchored `version = "..."` declaration,
`update_cargo_toml` writes the content back byte-identical, raises no
error, and still returns the updated-confirmation line. -/
theorem c10_update_cargo_toml_silent_noop {content version : List Char}
    (h : cargoHasMatch true content = false) :
    update_cargo_toml content version
      = (content, "✓ Updated Cargo.toml") := by
  rw [update_cargo_toml, subCargoAux_noop h]

/-- Witness for C10 on a manifest without an anchored version line. -/
theorem c10_witness :
    update_cargo_toml "[package]\nname = \"rustbot\"\n".toList "9.9.9".toList
      = ("[package]\nname = \"rustbot\"\n".toList, "✓ Updated Cargo.toml") :=
  @c10_update_cargo_toml_silent_noop ("[package]\nname = \"rustbot\"\n".toList)
    ("9.9.9".toList) (by decide)

/-! ## The manifest is written iff the version string changed -/

theorem fmt_ne_of_parse {v : List Char} {M m p x y z : Int}
    (hp : parse_version v = Except.ok (M, m, p))
    (hne : (x, y, z) ≠ (M, m, p)) : fmtVersion x y z ≠ v := by
  intro he
  have h2 := parse_version_fmtVersion x y z
  rw [he, hp] at h2
  injection h2 with h3
  exact hne h3.symm

/-- Claim C3: In the bump orchestration the manifest is written if and only
if the new version string differs from the old one: `bump "build"` leaves
the manifest content untouched and emits no manifest confirmation, while
`bump "major"`, `bump "minor"`, and `bump "patch"` always produce a new
version string different from the stored one, rewrite the manifest through
`update_cargo_toml`, and emit its confirmation. -/
theorem c3_bump_manifest_write_iff {fs : Files} {v b : List Char}
    {M m p : Int} {n : Int}
    (hv : get_current_version fs.version_rs = Except.ok (v, b))
    (hp : parse_version v = Except.ok (M, m, p))
    (hb : pyIntE b = Except.ok n) :
    (∃ r, bump fs "build".toList = Except.ok r
        ∧ r.1.cargo_toml = fs.cargo_toml
        ∧ "✓ Updated Cargo.toml" ∉ r.2)
    ∧ ∀ bt, (bt = "major".toList ∨ bt = "minor".toList ∨ bt = "patch".toList) →
        ∃ r newv newb, bump fs bt = Except.ok r
          ∧ bump_version fs.version_rs bt = Except.ok (newv, newb)
          ∧ newv ≠ v
          ∧ r.1.cargo_toml = (update_cargo_toml fs.cargo_toml newv).fst
          ∧ "✓ Updated Cargo.toml" ∈ r.2 := by
  constructor
  · have hbv := bv_build hv hp hb
    refine ⟨(⟨(update_version_rs fs.version_rs v (pad4 (n + 1))).fst,
        fs.cargo_toml,
        (update_version_md fs.version_md v (pad4 (n + 1))).fst⟩,
      ["✓ Updated src/version.rs", "✓ Updated VERSION_MANAGEMENT.md"]),
      ?_, rfl, ?_⟩
    · simp only [bump, hv, hbv]
      simp [update_version_rs, update_version_md]
    · show "✓ Updated Cargo.toml" ∉
        ["✓ Updated src/version.rs", "✓ Updated VERSION_MANAGEMENT.md"]
      decide
  · intro bt hbt
    rcases hbt with rfl | rfl | rfl
    · have hbv := bv_major hv hp
      have hne' : fmtVersion (M + 1) 0 0 ≠ v := by
        refine fmt_ne_of_parse hp ?_
        simp only [ne_eq, Prod.mk.injEq, not_and]
        intro h1
        omega
      refine ⟨(⟨(update_version_rs fs.version_rs (fmtVersion (M + 1) 0 0)
            "0001".toList).fst,
          (update_cargo_toml fs.cargo_toml (fmtVersion (M + 1) 0 0)).fst,
          (update_version_md fs.version_md (fmtVersion (M + 1) 0 0)
            "0001".toList).fst⟩,
        ["✓ Updated src/version.rs", "✓ Updated Cargo.toml",
         "✓ Updated VERSION_MANAGEMENT.md"]),
        fmtVersion (M + 1) 0 0, "0001".toList, ?_, hbv, hne', rfl, ?_⟩
      · simp only [bump, hv, hbv]
        simp [hne', update_version_rs, update_cargo_toml, update_version_md]
      · show "✓ Updated Cargo.toml" ∈
          ["✓ Updated src/version.rs", "✓ Updated Cargo.toml",
           "✓ Updated VERSION_MANAGEMENT.md"]
        decide
    · have hbv := bv_minor hv hp
      have hne' : fmtVersion M (m + 1) 0 ≠ v := by
        refine fmt_ne_of_parse hp ?_
        simp only [ne_eq, Prod.mk.injEq, not_and]
        intro h1 h2
        omega
      refine ⟨(⟨(update_version_rs fs.version_rs (fmtVersion M (m + 1) 0)
            "0001".toList).fst,
          (update_cargo_toml fs.cargo_toml (fmtVersion M (m + 1) 0)).fst,
          (update_version_md fs.version_md (fmtVersion M (m + 1) 0)
            "0001".toList).fst⟩,
        ["✓ Updated src/version.rs", "✓ Updated Cargo.toml",
         "✓ Updated VERSION_MANAGEMENT.md"]),
        fmtVersion M (m + 1) 0, "0001".toList, ?_, hbv, hne', rfl, ?_⟩
      · simp only [bump, hv, hbv]
        simp [hne', update_version_rs, update_cargo_toml, update_version_md]
      · show "✓ Updated Cargo.toml" ∈
          ["✓ Updated src/version.rs", "✓ Updated Cargo.toml",
           "✓ Updated VERSION_MANAGEMENT.md"]
        decide
    · have hbv := bv_patch hv hp
      have hne' : fmtVersion M m (p + 1) ≠ v := by
        refine fmt_ne_of_parse hp ?_
        simp only [ne_eq, Prod.mk.injEq, not_and]
        intro h1 h2
        omega
      refine ⟨(⟨(update_version_rs fs.version_rs (fmtVersion M m (p + 1))
            "0001".toList).fst,
          (update_cargo_toml fs.cargo_toml (fmtVersion M m (p + 1))).fst,
          (update_version_md fs.version_md (fmtVersion M m (p + 1))
            "0001".toList).fst⟩,
        ["✓ Updated src/version.rs", "✓ Updated Cargo.toml",
         "✓ Updated VERSION_MANAGEMENT.md"]),
        fmtVersion M m (p + 1), "0001".toList, ?_, hbv, hne', rfl, ?_⟩
      · simp only [bump, hv, hbv]
        simp [hne', update_version_rs, update_cargo_toml, update_version_md]
      · show "✓ Updated Cargo.toml" ∈
          ["✓ Updated src/version.rs", "✓ Updated Cargo.toml",
           "✓ Updated VERSION_MANAGEMENT.md"]
        decide

/-- Witness for C3 on the concrete project state `FS1`. -/
theorem c3_witness :
    (∃ r, bump FS1 "build".toList = Except.ok r
        ∧ r.1.cargo_toml = FS1.cargo_toml
        ∧ "✓ Updated Cargo.toml" ∉ r.2)
    ∧ ∀ bt, (bt = "major".toList ∨ bt = "minor".toList ∨ bt = "patch".toList) →
        ∃ r newv newb, bump FS1 bt = Except.ok r
          ∧ bump_version FS1.version_rs bt = Except.ok (newv, newb)
          ∧ newv ≠ "0.2.6".toList
          ∧ r.1.cargo_toml = (update_cargo_toml FS1.cargo_toml newv).fst
          ∧ "✓ Updated Cargo.toml" ∈ r.2 :=
  @c3_bump_manifest_write_iff FS1 ("0.2.6".toList) ("0007".toList) 0 2 6 7
    rfl rfl rfl

/-! ## `update_cargo_toml` rewrites every anchored match, not only the first -/

theorem dropPref_append (l r : List Char) : dropPref l (l ++ r) = some r := by
  induction l with
  | nil => simp [dropPref]
  | cons c cs ih => rw [List.cons_append, dropPref, if_pos rfl, ih]

theorem takeWhile_append_quote {v : List Char} (t : List Char)
    (h : ∀ c ∈ v, c ≠ '"') :
    (v ++ '"' :: t).takeWhile (fun c => c != '"') = v := by
  induction v with
  | nil => simp
  | cons c cs ih =>
    rw [List.cons_append, List.takeWhile_cons]
    have hc : (c != '"') = true := bne_iff_ne.mpr (h c (List.mem_cons_self c cs))
    rw [hc]
    simp only [if_true]
    rw [ih (fun d hd => h d (List.mem_cons_of_mem c hd))]

theorem dropWhile_append_quote {v : List Char} (t : List Char)
    (h : ∀ c ∈ v, c ≠ '"') :
    (v ++ '"' :: t).dropWhile (fun c => c != '"') = '"' :: t := by
  induction v with
  | nil => simp
  | cons c cs ih =>
    rw [List.cons_append, List.dropWhile_cons]
    have hc : (c != '"') = true := bne_iff_ne.mpr (h c (List.mem_cons_self c cs))
    rw [hc]
    simp only [if_true]
    exact ih (fun d hd => h d (List.mem_cons_of_mem c hd))

theorem matchCargoAt_hit {v : List Char} (t : List Char) (h1 : v ≠ [])
    (h2 : ∀ c ∈ v, c ≠ '"') :
    matchCargoAt (CARGO_OPEN ++ (v ++ '"' :: t)) = some t := by
  rw [matchCargoAt]
  simp only [dropPref_append, dropWhile_append_quote t h2,
    takeWhile_append_quote t h2]
  rw [if_neg]
  simp [List.isEmpty_iff, h1]

theorem subCargoAux_nil (repl : List Char) (f : Nat) (b : Bool) :
    subCargoAux repl f b [] = [] := by
  cases f <;> rfl

theorem subCargoAux_step_true {repl s rest : List Char} {f : Nat}
    (hm : matchCargoAt s = some rest) (hf : 0 < f) :
    subCargoAux repl f true s = repl ++ subCargoAux repl (f - 1) false rest := by
  cases f with
  | zero => omega
  | succ f =>
    cases s with
    | nil =>
      rw [show matchCargoAt [] = none from rfl] at hm
      cases hm
    | cons c cs =>
      rw [subCargoAux]
      simp [hm]

theorem subCargoAux_skip {repl : List Char} (c : Char) (cs : List Char)
    (f : Nat) :
    subCargoAux repl (f + 1) false (c :: cs)
      = c :: subCargoAux repl f (c == '\n') cs := by
  rw [subCargoAux]
  simp

/-- Counterexample for claim C4: a manifest with two anchored
`version = "..."` lines: `re.sub` with no count replaces both, so the
second matching line does not stay unchanged as the claim states. -/
theorem c4_counterexample :
    (update_cargo_toml "version = \"0.1.0\"\nversion = \"0.1.0\"".toList
        "9.9.9".toList).fst
      = "version = \"9.9.9\"\nversion = \"9.9.9\"".toList
    ∧ (update_cargo_toml "version = \"0.1.0\"\nversion = \"0.1.0\"".toList
        "9.9.9".toList).fst
      ≠ "version = \"9.9.9\"\nversion = \"0.1.0\"".toList :=
  ⟨rfl, by decide⟩

/-- Line-start status of the scanner after reading a prefix: true at the
start of the string and immediately after a newline (where MULTILINE `^`
matches). -/
def flagAfter : Bool → List Char → Bool
  | b, [] => b
  | _, c :: cs => flagAfter (c == '\n') cs

/-- Whether no anchored manifest match starts anywhere inside the segment
`g`, scanned from line-start status `b`, with `k` being the text that
follows `g` in the file (a match beginning inside `g` may extend into `k`,
so the continuation must be taken into account). -/
def scanNoMatch : Bool → List Char → List Char → Bool
  | _, [], _ => true
  | b, c :: cs, k =>
    (!(b && (matchCargoAt (c :: (cs ++ k))).isSome)) && scanNoMatch (c == '\n') cs k

/-- Assemble a manifest from its anchored matches and the text around
them: for each pair `(g, v)` the non-matching segment `g` is followed by
the anchored match `version = "v"`, and `t` is the trailing text after the
last match. -/
def cargoLines : List (List Char × List Char) → List Char → List Char
  | [], t => t
  | (g, v) :: rest, t => g ++ (CARGO_OPEN ++ (v ++ '"' :: cargoLines rest t))

/-- The same manifest with every anchored match replaced by the new
declaration `version = "w"` and all other text unchanged. -/
def cargoLinesRepl (w : List Char) : List (List Char × List Char) → List Char → List Char
  | [], t => t
  | (g, v) :: rest, t =>
    g ++ ((CARGO_OPEN ++ (w ++ ['"'])) ++ cargoLinesRepl w rest t)

/-- The decomposition `cargoLines ps t` is exactly the list of anchored
matches of the manifest: each `v` is a genuine match body (nonempty,
quote-free), each match sits at a line start, and no further anchored
match starts inside any segment or the trailing text.  Every manifest
content has such a (unique maximal) decomposition, obtained from the
match positions of `re.sub`. -/
def cargoDecomp : Bool → List (List Char × List Char) → List Char → Bool
  | b, [], t => !(cargoHasMatch b t)
  | b, (g, v) :: rest, t =>
    (!v.isEmpty) && v.all (fun c => c != '"')
      && scanNoMatch b g (CARGO_OPEN ++ (v ++ '"' :: cargoLines rest t))
      && flagAfter b g
      && cargoDecomp false rest t

theorem subCargoAux_gap {repl : List Char} :
    ∀ (g : List Char) (b : Bool) (k : List Char) (f : Nat),
      scanNoMatch b g k = true → g.length ≤ f →
      subCargoAux repl f b (g ++ k)
        = g ++ subCargoAux repl (f - g.length) (flagAfter b g) k := by
  intro g
  induction g with
  | nil => intro b k f _ _; simp [flagAfter]
  | cons c cs ih =>
    intro b k f hscan hf
    cases f with
    | zero =>
      rw [List.length_cons] at hf
      omega
    | succ f =>
      rw [scanNoMatch, Bool.and_eq_true] at hscan
      obtain ⟨h1, h2⟩ := hscan
      have hcs : cs.length ≤ f := by
        rw [List.length_cons] at hf
        omega
      rw [List.cons_append, subCargoAux]
      cases b with
      | false =>
        simp only [Bool.false_eq_true, if_false]
        rw [ih (c == '\n') k f h2 hcs, flagAfter, List.length_cons,
          Nat.succ_sub_succ, List.cons_append]
      | true =>
        have hnone : matchCargoAt (c :: (cs ++ k)) = none := by
          rcases hm : matchCargoAt (c :: (cs ++ k)) with _ | r
          · rfl
          · rw [hm] at h1
            simp at h1
        simp only [if_true, hnone]
        rw [ih (c == '\n') k f h2 hcs, flagAfter, List.length_cons,
          Nat.succ_sub_succ, List.cons_append]

theorem subCargoAux_decomp (w : List Char) :
    ∀ (ps : List (List Char × List Char)) (t : List Char) (b : Bool) (f : Nat),
      cargoDecomp b ps t = true → (cargoLines ps t).length ≤ f →
      subCargoAux (CARGO_OPEN ++ (w ++ ['"'])) f b (cargoLines ps t)
        = cargoLinesRepl w ps t := by
  intro ps
  induction ps with
  | nil =>
    intro t b f h hf
    rw [cargoDecomp, Bool.not_eq_eq_eq_not, Bool.not_true] at h
    simp only [cargoLines, cargoLinesRepl]
    exact subCargoAux_noop h f
  | cons p rest ih =>
    obtain ⟨g, v⟩ := p
    intro t b f h hf
    rw [cargoDecomp] at h
    simp only [Bool.and_eq_true] at h
    obtain ⟨⟨⟨⟨hne, hall⟩, hscan⟩, hflag⟩, hrest⟩ := h
    have hv1 : v ≠ [] := by
      intro he
      rw [he] at hne
      simp at hne
    have hv2 : ∀ c ∈ v, c ≠ '"' := by
      intro c hc
      exact bne_iff_ne.mp (List.all_eq_true.mp hall c hc)
    have h11 : CARGO_OPEN.length = 11 := rfl
    rw [cargoLines] at hf ⊢
    simp only [List.length_append, List.length_cons, h11] at hf
    rw [subCargoAux_gap g b _ f hscan (by omega), hflag,
      subCargoAux_step_true (matchCargoAt_hit _ hv1 hv2) (by omega),
      ih t false (f - g.length - 1) hrest (by omega), cargoLinesRepl]

/-- Claim C4 as amended: for every manifest, `update_cargo_toml` rewrites
every line-start match of the anchored form `version = "..."` (the
`re.sub` call passes no count, so all non-overlapping anchored matches
are replaced with the new declaration), and every character outside the
matches — the segments before, between and after them — is left
unchanged.  The manifest is given by its decomposition into matches and
surrounding text (`cargoLines`), which exists for every content. -/
theorem c4_update_cargo_toml_rewrites_every_match {w : List Char}
    {ps : List (List Char × List Char)} {t : List Char}
    (h : cargoDecomp true ps t = true) :
    (update_cargo_toml (cargoLines ps t) w).fst = cargoLinesRepl w ps t := by
  simp only [update_cargo_toml]
  exact subCargoAux_decomp w ps t true (cargoLines ps t).length h (le_refl _)

/-- Witness for the amended C4: a manifest with leading comment text, two
anchored matches (the first followed by trailing text on its line), a
non-matching line between them, and trailing text; both matches are
rewritten and all other text is preserved. -/
theorem c4_witness :
    (update_cargo_toml
        (cargoLines
          [("# intro\n".toList, "0.1.0".toList),
           ("name = \"x\"\n".toList, "2.3.4".toList)]
          "\n[deps]\n".toList)
        "9.9.9".toList).fst
      = cargoLinesRepl "9.9.9".toList
          [("# intro\n".toList, "0.1.0".toList),
           ("name = \"x\"\n".toList, "2.3.4".toList)]
          "\n[deps]\n".toList :=
  @c4_update_cargo_toml_rewrites_every_match ("9.9.9".toList)
    [("# intro\n".toList, "0.1.0".toList),
     ("name = \"x\"\n".toList, "2.3.4".toList)]
    ("\n[deps]\n".toList) (by decide)

end ManageVersion
